import Mathlib

/-!
Verification development for the 13F ingestion core of the hedge-fund-tracker
repository.  The definitions below are a shallow embedding of the TypeScript
source:

* `packages/shared` utilities (`isValidCUSIP`, `calculatePercentageChange`);
* `apps/ingestion/src/services/filing-parser.ts` (`parseHoldingEntry`,
  `parseTextTableRow`, `createHoldingFromCells`, the XML information-table
  traversal and summary derivation);
* `apps/ingestion/src/services/sec-edgar-client.ts` (`downloadFiling` and the
  axios response interceptor that wraps every transport error in `ApiError`);
* `apps/ingestion/src/services/data-ingestion-service.ts` (the orchestrator:
  `ensureFundManager`, `ensureSecurity`, `createFilingRecord`,
  `processHoldings`, `updatePortfolioPercentages`, `calculatePositionChanges`,
  `createBatches`, `ingestFilings`).

Modelling conventions: JavaScript numbers produced by `parseInt` are modelled
as `Option Int` with `none` playing the role of `NaN`; `BigInt(NaN)` (which
throws a `RangeError` in JS) is modelled as an `Except` failure at the point
of the corresponding `BigInt(...)` conversion.  Dates are modelled as natural
numbers (their millisecond timestamps); only equality and ordering of dates is
ever used by the source.  The persistent store is modelled as in-memory lists
of rows with serial id counters; storage operations themselves never fail in
the model (the storage layer is an abstract collaborator of the core).
Concurrent batch processing is modelled as sequential processing in array
order: the observable quantities of all claims below (row counts, error lists,
emitted records) are computed from the same per-filing steps in both cases.
Percentages are modelled as exact rationals where the source uses IEEE
doubles.
-/

/-! ### JavaScript string / number semantics -/

/-- Truthiness of an optional JS string: `undefined` and `""` are falsy.
`truthy a` is `some s` exactly when `a` holds a non-empty string. -/
def truthy (a : Option String) : Option String :=
  match a with
  | some s => if s = "" then none else some s
  | none => none

/-- JS `a || d` for a string `a` and a (non-empty) string default `d`. -/
def jsOrStr (a : Option String) (d : String) : String :=
  (truthy a).getD d

/-- Digit run at the head of a character list. -/
def takeDigits (cs : List Char) : List Char :=
  cs.takeWhile (fun c => c.isDigit)

/-- Decimal value of a big-endian digit list. -/
def digitsToNat (ds : List Char) : Nat :=
  ds.foldl (fun acc c => acc * 10 + (c.toNat - 48)) 0

/-- Whitespace in the sense of the JS regex class `\s` (ASCII part; the
source documents never contain the Unicode extras). -/
def isWs (c : Char) : Bool :=
  c = ' ' || c = '\t' || c = '\n' || c = '\r' || c = '\x0b' || c = '\x0c'

/-- Model of the JS builtin `parseInt(s)` on the decimal inputs occurring in
filings: leading whitespace is skipped, an optional sign is read, then the
longest digit prefix; `none` models `NaN` (no digit found).  The hexadecimal
`0x` corner of the builtin never arises on the source's inputs. -/
def jsParseInt (s : String) : Option Int :=
  let cs := s.data.dropWhile isWs
  match cs with
  | '-' :: rest =>
      let ds := takeDigits rest
      if ds.isEmpty then none else some (-(digitsToNat ds : Int))
  | '+' :: rest =>
      let ds := takeDigits rest
      if ds.isEmpty then none else some ((digitsToNat ds : Int))
  | _ =>
      let ds := takeDigits cs
      if ds.isEmpty then none else some ((digitsToNat ds : Int))

/-- Model of `str.replace(/[,$]/g, '')`. -/
def stripCommaDollar (s : String) : String :=
  ⟨s.data.filter (fun c => c ≠ ',' && c ≠ '$')⟩

/-- Character class `[0-9A-Z]`. -/
def isCusipChar (c : Char) : Bool :=
  ('0' ≤ c && c ≤ '9') || ('A' ≤ c && c ≤ 'Z')

/-- `isValidCUSIP` from `packages/shared`: the regex `^[0-9A-Z]{8}[0-9]$`
(8 alphanumeric characters followed by one digit). -/
def isValidCUSIP (cusip : String) : Bool :=
  cusip.length = 9 &&
    (cusip.data.take 8).all isCusipChar &&
    (cusip.data.drop 8).all (fun c => '0' ≤ c && c ≤ '9')

/-- The looser pattern `^[0-9A-Z]{9}$` used by the HTML/text positional
parsers to spot a CUSIP-like cell. -/
def cusipLike (s : String) : Bool :=
  s.length = 9 && s.data.all isCusipChar

/-- `calculatePercentageChange` from `packages/shared`:
`oldValue = 0` yields `100` when the new value is positive and `0` otherwise;
otherwise `((newValue - oldValue) / oldValue) * 100`. -/
def calculatePercentageChange (oldValue newValue : ℚ) : ℚ :=
  if oldValue = 0 then (if 0 < newValue then 100 else 0)
  else ((newValue - oldValue) / oldValue) * 100

/-! ### Splitting on the regex `\s{2,}|\t`

`parseTextTableRow` splits a row with `row.split(/\s{2,}|\t/)`: a maximal
whitespace run of length at least two, or a single tab, separates columns
(regex alternation prefers the greedy `\s{2,}` branch, so a run of tabs is a
single separator).  A single non-tab whitespace character stays inside its
column. -/

/-- Is a pending (reversed) whitespace run a separator? -/
def runIsSep (pend : List Char) : Bool :=
  decide (2 ≤ pend.length) || pend = ['\t']

/-- Structural splitter: `acc` is the current column (reversed), `pend` the
whitespace run being scanned (reversed). -/
def splitRun : List Char → List Char → List Char → List (List Char)
  | [], acc, pend =>
      if runIsSep pend then [acc.reverse, []] else [(pend ++ acc).reverse]
  | c :: rest, acc, pend =>
      if isWs c then splitRun rest acc (c :: pend)
      else if runIsSep pend then acc.reverse :: splitRun rest [c] []
      else splitRun rest (c :: (pend ++ acc)) []

/-- `row.split(/\s{2,}|\t/)`. -/
def split2ws (s : String) : List String :=
  (splitRun s.data [] []).map (fun cs => ⟨cs⟩)

/-! ### Stable descending sort and first-occurrence grouping -/

/-- Insert into a list already sorted by `key` descending, before the first
element with a smaller-or-equal key, keeping earlier elements of the original
list first on ties (stable, as ES2019 `Array.prototype.sort` is). -/
def insertByDesc {α : Type} (key : α → Nat) (x : α) : List α → List α
  | [] => [x]
  | y :: ys => if key y ≤ key x then x :: y :: ys else y :: insertByDesc key x ys

/-- Stable sort by `key` descending; models
`list.sort((a, b) => key(b) - key(a))`. -/
def sortByDesc {α : Type} (key : α → Nat) : List α → List α
  | [] => []
  | x :: xs => insertByDesc key x (sortByDesc key xs)

/-- Distinct elements in order of first occurrence (the iteration order of a
JS `Map` keyed by these elements), with an accumulator of already-seen keys. -/
def distinctAux {α : Type} [DecidableEq α] : List α → List α → List α
  | [], _ => []
  | k :: ks, seen =>
      if seen.contains k then distinctAux ks seen
      else k :: distinctAux ks (k :: seen)

/-- Distinct elements in order of first occurrence. -/
def distinctList {α : Type} [DecidableEq α] (l : List α) : List α :=
  distinctAux l []

theorem length_insertByDesc {α : Type} (key : α → Nat) (x : α) (l : List α) :
    (insertByDesc key x l).length = l.length + 1 := by
  induction l with
  | nil => rfl
  | cons y ys ih =>
      simp only [insertByDesc]
      split <;> simp [ih]

theorem length_sortByDesc {α : Type} (key : α → Nat) (l : List α) :
    (sortByDesc key l).length = l.length := by
  induction l with
  | nil => rfl
  | cons x xs ih => simp [sortByDesc, length_insertByDesc, ih]

/-! ### Filing parser: canonical holding shape

`ParsedHolding` mirrors the `ParsedHolding` interface of `filing-parser.ts`.
Numeric fields obtained through `parseInt` are `Option Int` (`none` = `NaN`).
-/

/-- The `shrsOrPrnAmt` component of a canonical holding. -/
structure ShrsOrPrnAmt where
  sshPrnamt : Option Int
  sshPrnamtType : String
  deriving Repr, DecidableEq

/-- The `votingAuthority` triple of a canonical holding. -/
structure VotingAuthority where
  sole : Option Int
  shared : Option Int
  none : Option Int
  deriving Repr, DecidableEq

/-- Canonical holding produced by the parser. -/
structure ParsedHolding where
  nameOfIssuer : String
  titleOfClass : String
  cusip : String
  value : Option Int
  shrsOrPrnAmt : ShrsOrPrnAmt
  investmentDiscretion : String
  votingAuthority : VotingAuthority
  deriving Repr, DecidableEq

/-! ### XML path

The xml2js parser is configured with `normalizeTags: true`, which lowercases
every tag name, and `explicitArray: false`, which yields a single object for a
lone `<infotable>` child and an array for several.  An `InfoTableEntry` is the
JS object for one `<infotable>` node: its keys are the lowercased child tag
names; a missing child is `undefined` (`none`).  Because of `normalizeTags`,
the camel-case keys `nameOfIssuer`, `titleOfClass`, `CUSIP`, `VALUE`,
`shrsOrPrnAmt`, `investmentDiscretion` and `votingAuthority` that
`parseHoldingEntry` also reads can never be present; only the all-lowercase
keys `cusip` and `value` that it reads ever exist. -/
structure InfoTableEntry where
  nameofissuer : Option String
  titleofclass : Option String
  cusip : Option String
  value : Option String
  deriving Repr, DecidableEq

/-- Declared-value string of an entry: `holding.value || holding.VALUE || '0'`
(`holding.VALUE` is always `undefined` under `normalizeTags`). -/
def declaredValueStr (holding : InfoTableEntry) : String :=
  jsOrStr holding.value "0"

/-- `parseHoldingEntry` of `filing-parser.ts`.  `holding.cusip || holding.CUSIP`
reduces to the truthiness of the lowercase `cusip` key; a falsy or invalid
CUSIP yields `null`.  The declared value is `parseInt(...) * 1000` (thousands
to whole units).  All camel-case lookups (`nameOfIssuer`, `titleOfClass`,
`shrsOrPrnAmt`, `investmentDiscretion`, `votingAuthority`) hit absent keys, so
their fallbacks apply: empty strings, `parseInt('0') = 0` shares, type `'SH'`,
discretion `'SOLE'`, voting triple `(0, 0, 0)`. -/
def parseHoldingEntry (holding : InfoTableEntry) : Option ParsedHolding :=
  match truthy holding.cusip with
  | Option.none => Option.none
  | some cusip =>
      if ¬ isValidCUSIP cusip then Option.none
      else
        some
          { nameOfIssuer := ""
            titleOfClass := ""
            cusip := cusip
            value := (jsParseInt (declaredValueStr holding)).map (· * 1000)
            shrsOrPrnAmt := { sshPrnamt := jsParseInt "0", sshPrnamtType := "SH" }
            investmentDiscretion := "SOLE"
            votingAuthority :=
              { sole := jsParseInt "0", shared := jsParseInt "0", none := jsParseInt "0" } }

/-- An `infotable` value inside the xml2js result: absent, a single node
(`explicitArray: false`), or an array of nodes. -/
inductive InfotableField where
  | missing
  | one (n : InfoTableEntry)
  | many (ns : List InfoTableEntry)
  deriving Repr, DecidableEq

/-- `Array.isArray(infoTable.infotable) ? infoTable.infotable :
[infoTable.infotable]`; the missing case gives `[undefined]`.  Part of the
holdings loop of `parseXmlFiling`, which is dead code — see `parseXmlFiling`
below. -/
def holdingsData : InfotableField → List (Option InfoTableEntry)
  | .missing => [Option.none]
  | .one n => [some n]
  | .many ns => ns.map some

/-- The holding loop of `parseXmlFiling` (skip falsy nodes, parse each node,
keep the non-null results).  In the source this loop is dead code: it sits
below the `parsed.informationtable` access, which is always `undefined`
because `explicitRoot: false` strips the root element — see `parseXmlFiling`
below.  It is modelled on its own because it documents what the loop would
compute were it reachable. -/
def parseXmlHoldings (f : InfotableField) : List ParsedHolding :=
  (holdingsData f).filterMap (fun o => o.bind parseHoldingEntry)

/-- The object `parseStringPromise` returns for the extracted
`<informationTable>` fragment.  The parser is configured with
`explicitRoot: false`, which STRIPS the root element: the result is the
root's content — an object whose only key is the lowercased child tag name,
`infotable`.  In particular no `informationtable` key exists on it. -/
structure ParsedInfoTableXml where
  infotable : InfotableField
  deriving Repr, DecidableEq

/-- JS property lookup on the stripped-root parse result: only the key
`"infotable"` is present; every other name — in particular
`"informationtable"` — is `undefined`. -/
def xmlResultGet (parsed : ParsedInfoTableXml) (key : String) : Option InfotableField :=
  if key = "infotable" then some parsed.infotable else Option.none

/-- The message of the `ApiError` that `parseXmlFiling`'s catch rethrows
after the member access `infoTable.infotable` throws a TypeError on
`undefined` (Node's wording). -/
def xmlParseErrorMsg : String :=
  "Failed to parse XML filing: Cannot read properties of undefined (reading 'infotable')"

/-- `parseXmlFiling` after the information-table fragment has been extracted
and parsed: `const infoTable = parsed.informationtable` looks up the key
`informationtable`, which the stripped-root result never has (its only key is
`infotable`), so `infoTable` is `undefined`; the next line's
`Array.isArray(infoTable.infotable)` member access on `undefined` then
throws, and the surrounding catch rethrows the error as `XML_PARSE_ERROR`.
Only if the lookup produced an object would the holdings loop
(`parseXmlHoldings`) run. -/
def parseXmlFiling (parsed : ParsedInfoTableXml) : Except String (List ParsedHolding) :=
  match xmlResultGet parsed "informationtable" with
  | Option.none => .error xmlParseErrorMsg
  | some infoTable => .ok (parseXmlHoldings infoTable)

/-- JS addition with `NaN` propagation. -/
def jsAdd (a b : Option Int) : Option Int :=
  match a, b with
  | some x, some y => some (x + y)
  | _, _ => Option.none

/-- `calculateSummaryFromHoldings`: the entry count and aggregate value are
summed over the successfully parsed holdings. -/
structure SummaryPage where
  otherIncludedManagersCount : Nat
  tableEntryTotal : Nat
  tableValueTotal : Option Int
  deriving Repr, DecidableEq

/-- Summary derivation over parsed holdings. -/
def calculateSummaryFromHoldings (holdings : List ParsedHolding) : SummaryPage :=
  { otherIncludedManagersCount := 0
    tableEntryTotal := holdings.length
    tableValueTotal := holdings.foldl (fun s h => jsAdd s h.value) (some 0) }

/-! ### Text and HTML positional paths -/

/-- `parseTextTableRow` of `filing-parser.ts`: split the row on
`/\s{2,}|\t/`, require at least 4 columns, locate the first CUSIP-like cell,
read the declared value from the next cell and the share count from the one
after (commas and dollar signs stripped), and fabricate the remaining fields. -/
def parseTextTableRow (row : String) : Option ParsedHolding :=
  let parts := split2ws row
  if parts.length < 4 then Option.none
  else
    match parts.findIdx? cusipLike with
    | Option.none => Option.none
    | some cusipIndex =>
        let cusip := (parts.get? cusipIndex).getD ""
        let nameOfIssuer := jsOrStr (parts.get? 0) ""
        let valueStr := jsOrStr (parts.get? (cusipIndex + 1)) "0"
        let value := (jsParseInt (stripCommaDollar valueStr)).map (· * 1000)
        let sharesStr := jsOrStr (parts.get? (cusipIndex + 2)) "0"
        let shares := jsParseInt (stripCommaDollar sharesStr)
        some
          { nameOfIssuer := nameOfIssuer
            titleOfClass := jsOrStr (parts.get? 1) ""
            cusip := cusip
            value := value
            shrsOrPrnAmt := { sshPrnamt := shares, sshPrnamtType := "SH" }
            investmentDiscretion := "SOLE"
            votingAuthority := { sole := shares, shared := some 0, none := some 0 } }

/-- `cells.indexOf(cusip)` of JS: index of the first occurrence, `-1` when
absent (so that `cells[cusipIndex + 1]` then reads `cells[0]`). -/
def jsIndexOf (cells : List String) (cusip : String) : Int :=
  match cells.findIdx? (fun c => c = cusip) with
  | some i => (i : Int)
  | Option.none => -1

/-- `createHoldingFromCells` of `filing-parser.ts` (HTML path): positional
reads relative to the CUSIP cell, with the same fabricated constants as the
text path.  The source's return type admits `null` but the body always
returns an object. -/
def createHoldingFromCells (cells : List String) (cusip : String) : Option ParsedHolding :=
  let cusipIndex := jsIndexOf cells cusip
  let valueStr := jsOrStr (cells.get? (cusipIndex + 1).toNat) "0"
  let sharesStr := jsOrStr (cells.get? (cusipIndex + 2).toNat) "0"
  let shares := jsParseInt (stripCommaDollar sharesStr)
  some
    { nameOfIssuer := jsOrStr (cells.get? 0) ""
      titleOfClass := jsOrStr (cells.get? 1) ""
      cusip := cusip
      value := (jsParseInt (stripCommaDollar valueStr)).map (· * 1000)
      shrsOrPrnAmt := { sshPrnamt := shares, sshPrnamtType := "SH" }
      investmentDiscretion := "SOLE"
      votingAuthority := { sole := shares, shared := some 0, none := some 0 } }

/-! ### SEC EDGAR client (`sec-edgar-client.ts`)

The axios response interceptor converts every failed response into an
`ApiError` (a plain `Error` subclass from `packages/shared`): status 429 into
`RATE_LIMIT`, 403 into `FORBIDDEN`, and everything else — including 404 —
into `EDGAR_API_ERROR` with `error.response?.status || 500`.  The value that
reaches a caller's `catch` is therefore always an `ApiError`, never an axios
error; `axios.isAxiosError(e)` tests `e.isAxiosError === true`, a flag
`ApiError` does not set.  The `isAxiosError` field below records that flag on
the thrown value. -/

/-- The outcome of one raw HTTP request, before interceptors. -/
inductive RawResult where
  | success (body : String)
  | httpError (status : Nat) (message : String)
  deriving Repr, DecidableEq

/-- A thrown JS error as seen by callers of `this.client.get`. -/
structure ThrownError where
  message : String
  statusCode : Nat
  code : String
  isAxiosError : Bool
  deriving Repr, DecidableEq

/-- The response interceptor composed with one request: the result of
`this.client.get(path)`. -/
def clientGet (fetch : String → RawResult) (path : String) : Except ThrownError String :=
  match fetch path with
  | .success body => .ok body
  | .httpError status message =>
      if status = 429 then
        .error { message := "Rate limit exceeded", statusCode := 429,
                 code := "RATE_LIMIT", isAxiosError := false }
      else if status = 403 then
        .error { message := "Access forbidden - check User-Agent header", statusCode := 403,
                 code := "FORBIDDEN", isAxiosError := false }
      else
        .error { message := jsOrStr (some message) "SEC EDGAR API request failed",
                 statusCode := if status = 0 then 500 else status,
                 code := "EDGAR_API_ERROR", isAxiosError := false }

/-- The three candidate document paths of `downloadFiling`, in source order
(structured XML information table, primary XML document, legacy full-text
submission).  `paddedCik` and `cleanAccession` are the zero-padded CIK and the
dash-free accession number. -/
def possiblePaths (accessionNumber cik : String) : List String :=
  let paddedCik := String.mk (List.replicate (10 - cik.length) '0') ++ cik
  let cleanAccession := ⟨accessionNumber.data.filter (fun c => c ≠ '-')⟩
  [ "/Archives/edgar/data/" ++ paddedCik ++ "/" ++ cleanAccession ++ "/form13fInfoTable.xml",
    "/Archives/edgar/data/" ++ paddedCik ++ "/" ++ cleanAccession ++ "/primary_doc.xml",
    "/Archives/edgar/data/" ++ paddedCik ++ "/" ++ cleanAccession ++ "/" ++ accessionNumber ++ ".txt" ]

/-- The per-path loop of `downloadFiling`: return the first successful body;
on a caught error, continue with the next path only when
`axios.isAxiosError(error) && error.response?.status === 404`, otherwise
rethrow; after the loop, throw the `FILING_NOT_FOUND` `ApiError`. -/
def downloadFilingLoop (fetch : String → RawResult) (accessionNumber : String) :
    List String → Except ThrownError String
  | [] =>
      .error { message := "13F filing not found for accession " ++ accessionNumber,
               statusCode := 404, code := "FILING_NOT_FOUND", isAxiosError := false }
  | path :: rest =>
      match clientGet fetch path with
      | .ok body => .ok body
      | .error e =>
          if e.isAxiosError && e.statusCode = 404 then
            downloadFilingLoop fetch accessionNumber rest
          else
            .error e

/-- `downloadFiling(accessionNumber, cik)` of `sec-edgar-client.ts`. -/
def downloadFiling (fetch : String → RawResult) (accessionNumber cik : String) :
    Except ThrownError String :=
  downloadFilingLoop fetch accessionNumber (possiblePaths accessionNumber cik)

/-! ### Data model rows and the store

In-memory model of the five tables used by `data-ingestion-service.ts`.
`id` columns are serial; the `next…Id` counters play the role of the
database's sequences.  Dates are their numeric values. -/

/-- A `fund_managers` row. -/
structure FundManagerRow where
  id : Nat
  cik : String
  name : String
  deriving Repr, DecidableEq

/-- A `securities` row. -/
structure SecurityRow where
  id : Nat
  cusip : String
  companyName : String
  securityType : String
  deriving Repr, DecidableEq

/-- A `filings` row. -/
structure FilingRow where
  id : Nat
  fundManagerId : Nat
  filingDate : Nat
  periodEndDate : Nat
  formType : String
  totalValue : Int
  totalPositions : Nat
  deriving Repr, DecidableEq

/-- A `holdings` row.  `percentOfPortfolio` is nullable and derived. -/
structure HoldingRow where
  id : Nat
  filingId : Nat
  securityId : Nat
  fundManagerId : Nat
  periodEndDate : Nat
  sharesHeld : Int
  marketValue : Int
  percentOfPortfolio : Option ℚ
  investmentDiscretion : String
  votingAuthority : VotingAuthority
  deriving Repr, DecidableEq

/-- A derived `position_changes` row. -/
structure PositionChangeRow where
  fundManagerId : Nat
  securityId : Nat
  fromPeriod : Nat
  toPeriod : Nat
  sharesChange : Int
  valueChange : Int
  percentChange : ℚ
  changeType : String
  deriving Repr, DecidableEq

/-- The store. -/
structure Db where
  fundManagers : List FundManagerRow
  securities : List SecurityRow
  filings : List FilingRow
  holdings : List HoldingRow
  positionChanges : List PositionChangeRow
  nextFundManagerId : Nat
  nextSecurityId : Nat
  nextFilingId : Nat
  nextHoldingId : Nat
  deriving Repr, DecidableEq

/-- An empty store with all sequences at 1. -/
def emptyDb : Db :=
  { fundManagers := [], securities := [], filings := [], holdings := [],
    positionChanges := [], nextFundManagerId := 1, nextSecurityId := 1,
    nextFilingId := 1, nextHoldingId := 1 }

/-- One entry of a daily filing index (`EdgarFilingIndex` of
`sec-edgar-client.ts`); `date_filed` is modelled by the numeric value of the
date it denotes. -/
structure EdgarFilingIndex where
  accession_number : String
  cik : String
  company_name : String
  form_type : String
  date_filed : Nat
  file_name : String
  deriving Repr, DecidableEq

/-- A parsed filing as handed to the orchestrator: the cover-page report
date, the derived summary, and the canonical holdings. -/
structure ParsedFiling where
  reportDate : Nat
  summaryPage : SummaryPage
  informationTable : List ParsedHolding
  deriving Repr, DecidableEq

/-! ### Orchestrator steps (`data-ingestion-service.ts`) -/

/-- `ensureFundManager`: read by CIK, insert on miss (first-sight name wins). -/
def ensureFundManager (db : Db) (filingIndex : EdgarFilingIndex) : Db × Nat × Bool :=
  match db.fundManagers.find? (fun m => m.cik == filingIndex.cik) with
  | some m => (db, m.id, false)
  | Option.none =>
      let row : FundManagerRow :=
        { id := db.nextFundManagerId, cik := filingIndex.cik, name := filingIndex.company_name }
      ({ db with fundManagers := db.fundManagers ++ [row],
                 nextFundManagerId := db.nextFundManagerId + 1 },
       db.nextFundManagerId, true)

/-- `ensureSecurity`: read by CUSIP, insert on miss. -/
def ensureSecurity (db : Db) (holding : ParsedHolding) : Db × Nat × Bool :=
  match db.securities.find? (fun s => s.cusip == holding.cusip) with
  | some s => (db, s.id, false)
  | Option.none =>
      let row : SecurityRow :=
        { id := db.nextSecurityId, cusip := holding.cusip,
          companyName := holding.nameOfIssuer, securityType := holding.titleOfClass }
      ({ db with securities := db.securities ++ [row],
                 nextSecurityId := db.nextSecurityId + 1 },
       db.nextSecurityId, true)

/-- `createFilingRecord`: one insert into `filings`.
`BigInt(parsedFiling.summaryPage.tableValueTotal * 100)` throws a
`RangeError` when the total is `NaN`; `tableValueTotal = none` therefore
fails. -/
def createFilingRecord (db : Db) (filingIndex : EdgarFilingIndex)
    (parsedFiling : ParsedFiling) (fundManagerId : Nat) : Except String (Db × Nat) :=
  match parsedFiling.summaryPage.tableValueTotal with
  | Option.none => .error "Cannot convert NaN to a BigInt"
  | some totalValue =>
      let row : FilingRow :=
        { id := db.nextFilingId, fundManagerId := fundManagerId,
          filingDate := filingIndex.date_filed,
          periodEndDate := parsedFiling.reportDate,
          formType := filingIndex.form_type,
          totalValue := totalValue * 100,
          totalPositions := parsedFiling.summaryPage.tableEntryTotal }
      .ok ({ db with filings := db.filings ++ [row], nextFilingId := db.nextFilingId + 1 },
           db.nextFilingId)

/-- `updatePortfolioPercentages`: sum the filing's persisted holding market
values; only when the total is positive, set every one of the filing's
holdings to `marketValue * 100 / total`. -/
def updatePortfolioPercentages (filingId : Nat) (db : Db) : Db :=
  let filingHoldings := db.holdings.filter (fun h => h.filingId == filingId)
  let totalValue : Int := (filingHoldings.map (fun h => h.marketValue)).sum
  if 0 < totalValue then
    { db with holdings :=
        db.holdings.map (fun h =>
          if h.filingId == filingId then
            { h with percentOfPortfolio := some (((h.marketValue : ℚ) * 100) / (totalValue : ℚ)) }
          else h) }
  else db

/-- The per-holding loop of `processHoldings`: skip invalid CUSIPs;
resolve-or-create the security (counting first sights); insert the holding
row with `sharesHeld = BigInt(sshPrnamt)` and
`marketValue = BigInt(value * 100)` — either conversion applied to `NaN`
throws, which the per-holding `catch` swallows, skipping only that holding
(the security row, created just before, stays). -/
def processHoldingsLoop (filingId fundManagerId periodEndDate : Nat) :
    Db → List ParsedHolding → Db × Nat × Nat
  | db, [] => (db, 0, 0)
  | db, holding :: rest =>
      if ¬ isValidCUSIP holding.cusip then
        processHoldingsLoop filingId fundManagerId periodEndDate db rest
      else
        let (db1, securityId, isNew) := ensureSecurity db holding
        let usInc : Nat := if isNew then 1 else 0
        match holding.shrsOrPrnAmt.sshPrnamt, holding.value with
        | some shares, some value =>
            let row : HoldingRow :=
              { id := db1.nextHoldingId, filingId := filingId, securityId := securityId,
                fundManagerId := fundManagerId, periodEndDate := periodEndDate,
                sharesHeld := shares, marketValue := value * 100,
                percentOfPortfolio := Option.none,
                investmentDiscretion := holding.investmentDiscretion,
                votingAuthority := holding.votingAuthority }
            let db2 := { db1 with holdings := db1.holdings ++ [row],
                                  nextHoldingId := db1.nextHoldingId + 1 }
            let (db3, nh, us) := processHoldingsLoop filingId fundManagerId periodEndDate db2 rest
            (db3, nh + 1, us + usInc)
        | _, _ =>
            let (db2, nh, us) := processHoldingsLoop filingId fundManagerId periodEndDate db1 rest
            (db2, nh, us + usInc)

/-- `processHoldings`: the loop followed by the percentage recomputation for
this filing; returns the new store, `newHoldings` and `updatedSecurities`. -/
def processHoldings (db : Db) (holdingsData : List ParsedHolding)
    (filingId fundManagerId periodEndDate : Nat) : Db × Nat × Nat :=
  let (db1, nh, us) := processHoldingsLoop filingId fundManagerId periodEndDate db holdingsData
  (updatePortfolioPercentages filingId db1, nh, us)

/-! ### Position-change derivation -/

/-- The per-group body of `calculatePositionChanges`: groups with fewer than
two rows are skipped; otherwise the rows are sorted by period-end date
descending and the two first rows are compared. -/
def emitGroup (g : List HoldingRow) : Option PositionChangeRow :=
  if g.length < 2 then Option.none
  else
    match sortByDesc (fun h => h.periodEndDate) g with
    | current :: previous :: _ =>
        let sharesChange := current.sharesHeld - previous.sharesHeld
        some
          { fundManagerId := current.fundManagerId, securityId := current.securityId,
            fromPeriod := previous.periodEndDate, toPeriod := current.periodEndDate,
            sharesChange := sharesChange,
            valueChange := current.marketValue - previous.marketValue,
            percentChange :=
              calculatePercentageChange (previous.marketValue : ℚ) (current.marketValue : ℚ),
            changeType :=
              if 0 < sharesChange then "INCREASED"
              else if sharesChange < 0 then "DECREASED" else "UNCHANGED" }
    | _ => Option.none

/-- Keys of the grouping map `holdingsByFundAndSecurity`, in insertion order.
The source keys the map by the string `fundManagerId + "-" + securityId`,
which is injective on pairs of numbers; the pair is used here directly. -/
def windowKeys (w : List HoldingRow) : List (Nat × Nat) :=
  distinctList (w.map (fun h => (h.fundManagerId, h.securityId)))

/-- The rows of one group, in window order. -/
def groupRows (w : List HoldingRow) (k : Nat × Nat) : List HoldingRow :=
  w.filter (fun h => h.fundManagerId == k.1 && h.securityId == k.2)

/-- The position-change derivation over a holdings window. -/
def calcPositionChangesFromWindow (w : List HoldingRow) : List PositionChangeRow :=
  (windowKeys w).filterMap (fun k => emitGroup (groupRows w k))

/-- `calculatePositionChanges`: derive over the 1000 most recent holdings
(ordered by period-end date descending; tie order among equal dates is
unspecified in SQL and fixed here as the stable order) and insert the
resulting rows. -/
def calculatePositionChanges (db : Db) : Db :=
  let recentHoldings := (sortByDesc (fun h => h.periodEndDate) db.holdings).take 1000
  { db with positionChanges := db.positionChanges ++ calcPositionChangesFromWindow recentHoldings }

/-! ### Per-filing processing and the run loop -/

/-- Options of a run (`IngestionOptions`). -/
structure IngestionOptions where
  skipExisting : Bool
  maxConcurrent : Nat
  specificCIKs : Option (List String)
  deriving Repr, DecidableEq

/-- Per-filing counters returned by `processSingleFiling`. -/
structure FilingCounts where
  newHoldings : Nat
  updatedSecurities : Nat
  newFundManagers : Nat
  deriving Repr, DecidableEq

/-- The existence check of `processSingleFiling` under `skipExisting`: a
`filings` row whose `fundManagerId` column equals `parseInt(filingIndex.cik)`
and whose `filingDate` equals `new Date(filingIndex.date_filed)`.  A `NaN`
from `parseInt` matches no row. -/
def existingFilingCheck (db : Db) (filingIndex : EdgarFilingIndex) : Bool :=
  db.filings.any (fun f =>
    (match jsParseInt filingIndex.cik with
     | some n => ((f.fundManagerId : Int) == n)
     | Option.none => false) && f.filingDate == filingIndex.date_filed)

/-- The wrapping of a per-filing error into the rethrown `ApiError` message. -/
def failMsg (filingIndex : EdgarFilingIndex) (m : String) : String :=
  "Failed to process filing " ++ filingIndex.accession_number ++ ": " ++ m

/-- `processSingleFiling`: skip when requested and the existence check fires;
otherwise download-and-parse (the `fetchParse` collaborator stands for
`secClient.downloadFiling` followed by `parser.parseFiling`), resolve the
fund manager, insert the filing, process the holdings.  Any error is caught
and rethrown wrapped by `failMsg`; the store mutations already performed
remain. -/
def processSingleFiling (options : IngestionOptions)
    (fetchParse : EdgarFilingIndex → Except String ParsedFiling)
    (db : Db) (filingIndex : EdgarFilingIndex) : Db × Except String FilingCounts :=
  if options.skipExisting && existingFilingCheck db filingIndex then
    (db, .ok { newHoldings := 0, updatedSecurities := 0, newFundManagers := 0 })
  else
    match fetchParse filingIndex with
    | .error m => (db, .error (failMsg filingIndex m))
    | .ok parsedFiling =>
        let (db1, fundManagerId, isNewManager) := ensureFundManager db filingIndex
        match createFilingRecord db1 filingIndex parsedFiling fundManagerId with
        | .error m => (db1, .error (failMsg filingIndex m))
        | .ok (db2, filingId) =>
            let (db3, nh, us) :=
              processHoldings db2 parsedFiling.informationTable filingId fundManagerId
                parsedFiling.reportDate
            (db3, .ok { newHoldings := nh, updatedSecurities := us,
                        newFundManagers := if isNewManager then 1 else 0 })

/-- `createBatches` worker: `acc` is the batch being filled (reversed), the
counter the remaining capacity. -/
def chunksGo {α : Type} (batchSize : Nat) : List α → List α → Nat → List (List α)
  | [], acc, _ => if acc.isEmpty then [] else [acc.reverse]
  | x :: xs, acc, 0 => acc.reverse :: chunksGo batchSize xs [x] (batchSize - 1)
  | x :: xs, acc, k + 1 => chunksGo batchSize xs (x :: acc) k

/-- `createBatches(items, batchSize)`: consecutive slices of at most
`batchSize` items. -/
def createBatches {α : Type} (items : List α) (batchSize : Nat) : List (List α) :=
  match items with
  | [] => []
  | x :: xs => chunksGo batchSize xs [x] (batchSize - 1)

/-- The run summary (`IngestionResult`).  `duration` is wall-clock time and
is not modelled (always 0). -/
structure IngestionResult where
  processedFilings : Nat
  newHoldings : Nat
  updatedSecurities : Nat
  newFundManagers : Nat
  errors : List String
  duration : Nat
  deriving Repr, DecidableEq

/-- The zero summary a run starts from. -/
def emptyResult : IngestionResult :=
  { processedFilings := 0, newHoldings := 0, updatedSecurities := 0,
    newFundManagers := 0, errors := [], duration := 0 }

/-- Folding one settled per-filing promise into the run state: a fulfilled
filing bumps `processedFilings` and the counters, a rejected one appends its
readable message to `errors`; either way the run continues. -/
def stepFiling (options : IngestionOptions)
    (fetchParse : EdgarFilingIndex → Except String ParsedFiling)
    (st : Db × IngestionResult) (filingIndex : EdgarFilingIndex) : Db × IngestionResult :=
  match processSingleFiling options fetchParse st.1 filingIndex with
  | (db', .ok c) =>
      (db', { st.2 with
              processedFilings := st.2.processedFilings + 1,
              newHoldings := st.2.newHoldings + c.newHoldings,
              updatedSecurities := st.2.updatedSecurities + c.updatedSecurities,
              newFundManagers := st.2.newFundManagers + c.newFundManagers })
  | (db', .error m) => (db', { st.2 with errors := st.2.errors ++ [m] })

/-- `ingestFilings`: enumerate candidates (an enumeration failure is caught
by the outer `try` and returned as the sole error of the summary), filter by
`specificCIKs`, batch by `maxConcurrent || 5`, process every batch
(`Promise.allSettled` collects successes and failures alike, in array
order), then run the global position-change pass.  Always returns a summary.
`filterBySpecificCIKs` is the candidate filter applied first. -/
def filterBySpecificCIKs (options : IngestionOptions)
    (filingIndexes : List EdgarFilingIndex) : List EdgarFilingIndex :=
  match options.specificCIKs with
  | some ciks => filingIndexes.filter (fun f => ciks.contains f.cik)
  | Option.none => filingIndexes

/-- The run loop of `ingestFilings`; see `filterBySpecificCIKs` above. -/
def ingestFilings (options : IngestionOptions)
    (fetchParse : EdgarFilingIndex → Except String ParsedFiling)
    (candidates : Except String (List EdgarFilingIndex)) (db : Db) : Db × IngestionResult :=
  match candidates with
  | .error m => (db, { emptyResult with errors := [m] })
  | .ok filingIndexes =>
      let filteredFilings := filterBySpecificCIKs options filingIndexes
      let maxConcurrent := if options.maxConcurrent = 0 then 5 else options.maxConcurrent
      let batches := createBatches filteredFilings maxConcurrent
      let folded :=
        batches.foldl (fun st batch => batch.foldl (stepFiling options fetchParse) st) (db, emptyResult)
      (calculatePositionChanges folded.1, folded.2)

/-! ### Concrete fixtures -/

/-- A daily-index entry for CIK 1067983 (the spec's end-to-end fixture). -/
def idxBrk : EdgarFilingIndex :=
  { accession_number := "0000950123-24-008740", cik := "1067983",
    company_name := "BERKSHIRE HATHAWAY INC", form_type := "13F-HR",
    date_filed := 20240814,
    file_name := "edgar/data/1067983/0000950123-24-008740-index.html" }

/-- A canonical holding with a valid CUSIP (declared value 17,400,000
thousand, already scaled by the parser to whole units). -/
def holdingAAPL : ParsedHolding :=
  { nameOfIssuer := "APPLE INC", titleOfClass := "COM", cusip := "037833100",
    value := some 17400000000,
    shrsOrPrnAmt := { sshPrnamt := some 915560000, sshPrnamtType := "SH" },
    investmentDiscretion := "SOLE",
    votingAuthority := { sole := some 915560000, shared := some 0, none := some 0 } }

/-- The parsed filing for the fixture. -/
def parsedBrk : ParsedFiling :=
  { reportDate := 20240630,
    summaryPage := calculateSummaryFromHoldings [holdingAAPL],
    informationTable := [holdingAAPL] }

/-- A download-and-parse collaborator that always yields the fixture. -/
def fetchParseBrk : EdgarFilingIndex → Except String ParsedFiling :=
  fun _ => .ok parsedBrk

/-- Options with `skipExisting` requested (`maxConcurrent` unset). -/
def optsSkip : IngestionOptions :=
  { skipExisting := true, maxConcurrent := 0, specificCIKs := Option.none }

/-- The store after one run over the one-filing window. -/
def dbAfterFirstRun : Db := (ingestFilings optsSkip fetchParseBrk (.ok [idxBrk]) emptyDb).1

/-- The store after a second, identical run. -/
def dbAfterSecondRun : Db :=
  (ingestFilings optsSkip fetchParseBrk (.ok [idxBrk]) dbAfterFirstRun).1

/-- C1.  Idempotence of ingestion fails on the code: the `skipExisting`
existence check filters `filings.fundManagerId = parseInt(cik)`, but the
persisted filing's `fundManagerId` column holds the internal serial id of the
fund-manager row (here 1), not the CIK (1067983).  The second run over the
identical window therefore does not find the filing persisted by the first
run, re-downloads it, and inserts a second Filing row and a second Holding
row: Filing and Holding counts double instead of staying unchanged. -/
theorem ingest_twice_duplicates_filing :
    dbAfterFirstRun.filings.length = 1 ∧ dbAfterFirstRun.holdings.length = 1 ∧
    dbAfterSecondRun.filings.length = 2 ∧ dbAfterSecondRun.holdings.length = 2 ∧
    existingFilingCheck dbAfterFirstRun idxBrk = false ∧
    (dbAfterFirstRun.filings.map (fun f => f.fundManagerId)) = [1] ∧
    jsParseInt idxBrk.cik = some 1067983 := by
  decide

/-! ### Claim C7: document path fallback -/

/-- A raw transport in which the structured information-table path is absent
(404) while the primary XML document exists. -/
def rawFetch404 : String → RawResult := fun path =>
  if path = "/Archives/edgar/data/0001067983/000095012324008740/primary_doc.xml" then
    .success "<xml>primary</xml>"
  else .httpError 404 "Request failed with status code 404"

theorem clientGet_error_spec (fetch : String → RawResult) (path : String) (e : ThrownError)
    (h : clientGet fetch path = .error e) :
    e.isAxiosError = false ∧ e.code ≠ "FILING_NOT_FOUND" := by
  unfold clientGet at h
  cases hf : fetch path with
  | success body => rw [hf] at h; exact Except.noConfusion h
  | httpError status message =>
      rw [hf] at h
      dsimp only at h
      by_cases h429 : status = 429
      · rw [if_pos h429] at h
        injection h with h'
        rw [← h']
        exact ⟨rfl, (by decide : ("RATE_LIMIT" : String) ≠ "FILING_NOT_FOUND")⟩
      · rw [if_neg h429] at h
        by_cases h403 : status = 403
        · rw [if_pos h403] at h
          injection h with h'
          rw [← h']
          exact ⟨rfl, (by decide : ("FORBIDDEN" : String) ≠ "FILING_NOT_FOUND")⟩
        · rw [if_neg h403] at h
          injection h with h'
          rw [← h']
          exact ⟨rfl, (by decide : ("EDGAR_API_ERROR" : String) ≠ "FILING_NOT_FOUND")⟩

theorem downloadFilingLoop_no_filing_not_found (fetch : String → RawResult)
    (accessionNumber : String) (p : String) (rest : List String) (e : ThrownError)
    (h : downloadFilingLoop fetch accessionNumber (p :: rest) = .error e) :
    e.code ≠ "FILING_NOT_FOUND" := by
  simp only [downloadFilingLoop] at h
  cases hc : clientGet fetch p with
  | ok body => rw [hc] at h; exact Except.noConfusion h
  | error e1 =>
      rw [hc] at h
      dsimp only at h
      have hspec := clientGet_error_spec _ _ _ hc
      rw [hspec.1] at h
      simp only [Bool.false_and, Bool.false_eq_true, if_false] at h
      injection h with h'
      rw [← h']
      exact hspec.2

/-- C7.  The path-fallback contract fails on the code: the axios response
interceptor has already converted the 404 into an `ApiError`, for which
`axios.isAxiosError` is false, so the `continue`-on-404 branch of
`downloadFiling` never fires.  A 404 on the first candidate path is rethrown
immediately — the primary document available at the second path is never
requested — and no execution can reach the terminal `FILING_NOT_FOUND`
failure. -/
theorem downloadFiling_404_rethrown_not_next_path :
    downloadFiling rawFetch404 "0000950123-24-008740" "1067983" =
      .error { message := "Request failed with status code 404", statusCode := 404,
               code := "EDGAR_API_ERROR", isAxiosError := false } ∧
    clientGet rawFetch404
        "/Archives/edgar/data/0001067983/000095012324008740/primary_doc.xml" =
      .ok "<xml>primary</xml>" ∧
    ∀ (fetch : String → RawResult) (accessionNumber cik : String) (e : ThrownError),
      downloadFiling fetch accessionNumber cik = .error e → e.code ≠ "FILING_NOT_FOUND" := by
  refine ⟨by rfl, by rfl, ?_⟩
  intro fetch accessionNumber cik e h
  unfold downloadFiling at h
  exact downloadFilingLoop_no_filing_not_found fetch accessionNumber _ _ e h

/-- Closed instance of the universally quantified part of C7's theorem. -/
theorem downloadFiling_404_rethrown_witness :
    ({ message := "Request failed with status code 404", statusCode := 404,
       code := "EDGAR_API_ERROR", isAxiosError := false } : ThrownError).code ≠
      "FILING_NOT_FOUND" :=
  downloadFiling_404_rethrown_not_next_path.2.2 rawFetch404 "0000950123-24-008740" "1067983" _
    downloadFiling_404_rethrown_not_next_path.1

/-! ### Claims C3 and C9: portfolio percentages -/

/-- The percentage `updatePortfolioPercentages` computes for one row:
`Number(marketValue * 100) / Number(totalValue)`. -/
def pctValue (totalValue : Int) (h : HoldingRow) : ℚ :=
  ((h.marketValue : ℚ) * 100) / (totalValue : ℚ)

/-- The per-row assignment performed by `updatePortfolioPercentages` once the
positive total is known. -/
def pctAssign (filingId : Nat) (totalValue : Int) (h : HoldingRow) : HoldingRow :=
  if h.filingId == filingId then { h with percentOfPortfolio := some (pctValue totalValue h) }
  else h

theorem pctValue_eq (tv : Int) :
    pctValue tv = fun h : HoldingRow => ((h.marketValue : ℚ) * 100) / (tv : ℚ) := rfl

theorem filter_filingId_map_pres (l : List HoldingRow) (fid : Nat) (g : HoldingRow → HoldingRow)
    (hg : ∀ h, (g h).filingId = h.filingId) :
    (l.map g).filter (fun hr => hr.filingId == fid) =
      (l.filter (fun hr => hr.filingId == fid)).map g := by
  rw [List.filter_map]
  have hfun : (fun hr => hr.filingId == fid) ∘ g = (fun hr => hr.filingId == fid) := by
    funext h
    simp [Function.comp, hg h]
  rw [hfun]

theorem filterMap_pct_map_set (l : List HoldingRow) (q : HoldingRow → ℚ) :
    (l.map (fun h => { h with percentOfPortfolio := some (q h) })).filterMap
        (fun hr => hr.percentOfPortfolio) = l.map q := by
  induction l with
  | nil => rfl
  | cons h t ih => simp only [List.map_cons, List.filterMap_cons, ih]

theorem sum_map_div_q (l : List HoldingRow) (f : HoldingRow → ℚ) (c : ℚ) :
    (l.map (fun h => f h / c)).sum = (l.map f).sum / c := by
  induction l with
  | nil => simp
  | cons h t ih => simp [ih, add_div]

theorem sum_marketValue_cast (l : List HoldingRow) :
    (l.map (fun h => (h.marketValue : ℚ))).sum =
      (((l.map (fun h => h.marketValue)).sum : Int) : ℚ) := by
  induction l with
  | nil => simp
  | cons h t ih => simp [ih]

theorem pctAssign_filingId (fid : Nat) (tv : Int) (h : HoldingRow) :
    (pctAssign fid tv h).filingId = h.filingId := by
  unfold pctAssign
  by_cases hh : h.filingId == fid
  · simp [hh]
  · simp [hh]

theorem updatePortfolioPercentages_of_pos (db : Db) (filingId : Nat)
    (hpos : 0 < ((db.holdings.filter (fun hr => hr.filingId == filingId)).map
      (fun hr => hr.marketValue)).sum) :
    updatePortfolioPercentages filingId db =
      { db with holdings :=
          db.holdings.map (pctAssign filingId
            ((db.holdings.filter (fun hr => hr.filingId == filingId)).map
              (fun hr => hr.marketValue)).sum) } := by
  simp only [updatePortfolioPercentages]
  rw [if_pos hpos]
  rfl

/-- C3 (amended).  For every filing whose persisted holdings have positive
total market value, the recomputation assigns every one of the filing's
holdings the percentage `marketValue * 100 / total` — derived from the
persisted values, not copied from the filer's declared totals — and the
percentages sum to exactly 100 (hence to within ±0.5 of 100). -/
theorem updatePortfolioPercentages_sums_to_100 (db : Db) (filingId : Nat) (total : Int)
    (htot : ((db.holdings.filter (fun hr => hr.filingId == filingId)).map
      (fun hr => hr.marketValue)).sum = total)
    (hpos : 0 < total) :
    (((updatePortfolioPercentages filingId db).holdings.filter
        (fun hr => hr.filingId == filingId)).filterMap (fun hr => hr.percentOfPortfolio)).sum
      = 100 ∧
    |(((updatePortfolioPercentages filingId db).holdings.filter
        (fun hr => hr.filingId == filingId)).filterMap (fun hr => hr.percentOfPortfolio)).sum
      - 100| ≤ 1 / 2 ∧
    ∀ hr ∈ (updatePortfolioPercentages filingId db).holdings.filter
        (fun hr => hr.filingId == filingId),
      hr.percentOfPortfolio = some (((hr.marketValue : ℚ) * 100) / (total : ℚ)) := by
  subst htot
  rw [updatePortfolioPercentages_of_pos db filingId hpos]
  rw [filter_filingId_map_pres _ _ _ (pctAssign_filingId filingId _)]
  have hmem : ∀ h ∈ db.holdings.filter (fun hr => hr.filingId == filingId),
      pctAssign filingId
        ((db.holdings.filter (fun hr => hr.filingId == filingId)).map
          (fun hr => hr.marketValue)).sum h =
      { h with percentOfPortfolio := some (pctValue
          ((db.holdings.filter (fun hr => hr.filingId == filingId)).map
            (fun hr => hr.marketValue)).sum h) } := by
    intro h hmemh
    have hfid := (List.mem_filter.1 hmemh).2
    unfold pctAssign
    rw [if_pos hfid]
  rw [List.map_congr_left hmem]
  have hne : ((((db.holdings.filter (fun hr => hr.filingId == filingId)).map
      (fun hr => hr.marketValue)).sum : Int) : ℚ) ≠ 0 := by
    have hq : (0 : ℚ) < ((((db.holdings.filter (fun hr => hr.filingId == filingId)).map
        (fun hr => hr.marketValue)).sum : Int) : ℚ) := by exact_mod_cast hpos
    exact ne_of_gt hq
  have hsum :
      (((db.holdings.filter (fun hr => hr.filingId == filingId)).map (fun h : HoldingRow =>
        { h with percentOfPortfolio := some (pctValue
            ((db.holdings.filter (fun hr => hr.filingId == filingId)).map
              (fun hr => hr.marketValue)).sum h) })).filterMap
        (fun hr : HoldingRow => hr.percentOfPortfolio)).sum = 100 := by
    rw [filterMap_pct_map_set]
    rw [pctValue_eq]
    rw [sum_map_div_q _ (fun h => (h.marketValue : ℚ) * 100)]
    rw [List.sum_map_mul_right _ (fun h : HoldingRow => (h.marketValue : ℚ)) 100]
    rw [sum_marketValue_cast]
    rw [mul_comm]
    rw [mul_div_assoc]
    rw [div_self hne]
    rw [mul_one]
  refine ⟨hsum, by rw [hsum]; simp, ?_⟩
  intro hr hmemr
  rcases List.mem_map.1 hmemr with ⟨h, hmem2, hset⟩
  rw [← hset]
  rfl

/-- A holdings row with zero market value and an as-yet-null percentage, the
shape `processHoldings` inserts before recomputation. -/
def zeroHoldingRow : HoldingRow :=
  { id := 1, filingId := 1, securityId := 1, fundManagerId := 1, periodEndDate := 0,
    sharesHeld := 10, marketValue := 0, percentOfPortfolio := Option.none,
    investmentDiscretion := "SOLE",
    votingAuthority := { sole := some 10, shared := some 0, none := some 0 } }

/-- A store holding exactly one persisted holding, of market value zero. -/
def dbZero : Db := { emptyDb with holdings := [zeroHoldingRow] }

/-- A parsed holding with declared value 0 (as the text path produces for a
row whose value cell is `0`). -/
def zeroValueHolding : ParsedHolding :=
  { nameOfIssuer := "X CORP", titleOfClass := "COM", cusip := "037833100",
    value := some 0,
    shrsOrPrnAmt := { sshPrnamt := some 10, sshPrnamtType := "SH" },
    investmentDiscretion := "SOLE",
    votingAuthority := { sole := some 10, shared := some 0, none := some 0 } }

/-- The store after the per-filing holdings processing of a filing whose only
holding has market value zero. -/
def dbAfterZeroFiling : Db := (processHoldings emptyDb [zeroValueHolding] 1 1 0).1

/-- C3 (counterexample).  A filing with one persisted holding whose market
value is zero: after the per-filing processing completes, the holding's
percent-of-portfolio is still null, and the filing's percentages do not sum
to within ±0.5 of 100. -/
theorem percentages_not_100_for_zero_value_filing :
    dbAfterZeroFiling.holdings.length = 1 ∧
    dbAfterZeroFiling.holdings.map (fun hr => hr.percentOfPortfolio) = [Option.none] ∧
    ¬ |((dbAfterZeroFiling.holdings.filter (fun hr => hr.filingId == 1)).filterMap
        (fun hr => hr.percentOfPortfolio)).sum - 100| ≤ 1 / 2 := by
  refine ⟨by decide, by decide, ?_⟩
  intro habs
  have hz : ((dbAfterZeroFiling.holdings.filter (fun hr => hr.filingId == 1)).filterMap
      (fun hr => hr.percentOfPortfolio)).sum = 0 := by decide
  rw [hz] at habs
  norm_num at habs

/-- Closed instance of C3's amended theorem: two holdings of market values
6000 and 4000 receive percentages summing to exactly 100. -/
theorem updatePortfolioPercentages_sums_to_100_witness :
    (((updatePortfolioPercentages 7
        { emptyDb with holdings :=
            [ { zeroHoldingRow with id := 1, filingId := 7, marketValue := 6000 },
              { zeroHoldingRow with id := 2, filingId := 7, marketValue := 4000 } ] }).holdings.filter
        (fun hr => hr.filingId == 7)).filterMap (fun hr => hr.percentOfPortfolio)).sum = 100 :=
  (updatePortfolioPercentages_sums_to_100
    { emptyDb with holdings :=
        [ { zeroHoldingRow with id := 1, filingId := 7, marketValue := 6000 },
          { zeroHoldingRow with id := 2, filingId := 7, marketValue := 4000 } ] }
    7 10000 (by decide) (by decide)).1

/-- C9.  When a filing's persisted holdings sum to a total market value of
zero — including the case of no persisted holdings at all — the percentage
recomputation performs no update (hence no division), and every holding of
the filing keeps its initial null percent-of-portfolio. -/
theorem updatePortfolioPercentages_zero_total (db : Db) (filingId : Nat)
    (htot : ((db.holdings.filter (fun hr => hr.filingId == filingId)).map
      (fun hr => hr.marketValue)).sum = 0)
    (hnull : ∀ hr ∈ db.holdings, hr.filingId = filingId →
      hr.percentOfPortfolio = Option.none) :
    updatePortfolioPercentages filingId db = db ∧
    ∀ hr ∈ (updatePortfolioPercentages filingId db).holdings, hr.filingId = filingId →
      hr.percentOfPortfolio = Option.none := by
  have heq : updatePortfolioPercentages filingId db = db := by
    simp only [updatePortfolioPercentages]
    rw [htot]
    simp
  exact ⟨heq, by rw [heq]; exact hnull⟩

/-- Closed instance of C9's theorem at the one-zero-holding store. -/
theorem updatePortfolioPercentages_zero_total_witness :
    updatePortfolioPercentages 1 dbZero = dbZero :=
  (updatePortfolioPercentages_zero_total dbZero 1 (by decide) (by decide)).1

/-! ### Claim C4: the two monetary scalings -/

theorem parseHoldingEntry_spec (e : InfoTableEntry) (h : ParsedHolding)
    (hp : parseHoldingEntry e = some h) :
    isValidCUSIP h.cusip = true ∧
    h.value = (jsParseInt (declaredValueStr e)).map (· * 1000) ∧
    h.shrsOrPrnAmt.sshPrnamt = some 0 ∧
    h.shrsOrPrnAmt.sshPrnamtType = "SH" ∧
    h.investmentDiscretion = "SOLE" ∧
    h.votingAuthority = { sole := some 0, shared := some 0, none := some 0 } := by
  unfold parseHoldingEntry at hp
  cases hc : truthy e.cusip with
  | none => rw [hc] at hp; exact Option.noConfusion hp
  | some c =>
      rw [hc] at hp
      dsimp only at hp
      by_cases hv : isValidCUSIP c
      · rw [if_neg (by simp [hv])] at hp
        injection hp with hp'
        rw [← hp']
        exact ⟨hv, rfl, rfl, rfl, rfl, rfl⟩
      · simp [hv] at hp

theorem ensureSecurity_holdings (db : Db) (h : ParsedHolding) :
    (ensureSecurity db h).1.holdings = db.holdings := by
  unfold ensureSecurity
  cases db.securities.find? (fun s => s.cusip == h.cusip) <;> rfl

theorem updatePortfolioPercentages_marketValues (fid : Nat) (db : Db) :
    (updatePortfolioPercentages fid db).holdings.map (fun hr => hr.marketValue) =
      db.holdings.map (fun hr => hr.marketValue) := by
  simp only [updatePortfolioPercentages]
  split
  · show (db.holdings.map _).map _ = _
    rw [List.map_map]
    apply List.map_congr_left
    intro h _
    by_cases hh : h.filingId == fid
    · simp [Function.comp, hh]
    · simp [Function.comp, hh]
  · rfl

theorem processHoldings_single_marketValue (db : Db) (h : ParsedHolding)
    (filingId fundManagerId periodEndDate : Nat) (sh v : Int)
    (hcusip : isValidCUSIP h.cusip = true)
    (hsh : h.shrsOrPrnAmt.sshPrnamt = some sh)
    (hval : h.value = some v) :
    ((processHoldings db [h] filingId fundManagerId periodEndDate).1.holdings.map
      (fun hr => hr.marketValue)) =
    (db.holdings.map (fun hr => hr.marketValue)) ++ [v * 100] := by
  unfold processHoldings
  unfold processHoldingsLoop
  rw [if_neg (by simp [hcusip])]
  rcases hES : ensureSecurity db h with ⟨db1, securityId, isNew⟩
  have hdb1 : db1.holdings = db.holdings := by
    have := ensureSecurity_holdings db h
    rw [hES] at this
    exact this
  rw [hsh, hval]
  dsimp only [processHoldingsLoop]
  rw [updatePortfolioPercentages_marketValues]
  simp [hdb1]

/-- An information-table node with declared value string `"12345"`. -/
def entry12345 : InfoTableEntry :=
  { nameofissuer := some "TEST CO", titleofclass := some "COM",
    cusip := some "037833100", value := some "12345" }

/-- The canonical holding `parseHoldingEntry` produces for `entry12345`. -/
def holding12345 : ParsedHolding :=
  { nameOfIssuer := "", titleOfClass := "", cusip := "037833100",
    value := some 12345000,
    shrsOrPrnAmt := { sshPrnamt := some 0, sshPrnamtType := "SH" },
    investmentDiscretion := "SOLE",
    votingAuthority := { sole := some 0, shared := some 0, none := some 0 } }

/-- C4.  The two monetary scalings compose: the declared value string
`"12345"` (thousands of currency units) parses to the canonical amount
12,345,000 whole units (`parseInt * 1000`), and for every declared integer
`v` the orchestrator persists the holding's market value as
`v * 1000 * 100 = v * 100000` integer minor units. -/
theorem monetary_scalings_compose :
    parseHoldingEntry entry12345 = some holding12345 ∧
    holding12345.value = some 12345000 ∧
    (∀ (e : InfoTableEntry) (h : ParsedHolding) (v : Int)
       (db : Db) (filingId fundManagerId periodEndDate : Nat),
       parseHoldingEntry e = some h →
       jsParseInt (declaredValueStr e) = some v →
       ((processHoldings db [h] filingId fundManagerId periodEndDate).1.holdings.map
         (fun hr => hr.marketValue)) =
       (db.holdings.map (fun hr => hr.marketValue)) ++ [v * 100000]) := by
  refine ⟨by decide, by decide, ?_⟩
  intro e h v db filingId fundManagerId periodEndDate hp hv
  have hs := parseHoldingEntry_spec e h hp
  have hval : h.value = some (v * 1000) := by rw [hs.2.1, hv]; rfl
  have hmain := processHoldings_single_marketValue db h filingId fundManagerId periodEndDate
    0 (v * 1000) hs.1 hs.2.2.1 hval
  rw [hmain]
  have hmul : v * 1000 * 100 = v * 100000 := by ring
  rw [hmul]

/-- Closed instance of C4's theorem: the declared `"12345"` is persisted as
1,234,500,000 minor units. -/
theorem monetary_scalings_compose_witness :
    ((processHoldings emptyDb [holding12345] 1 1 0).1.holdings.map
      (fun hr => hr.marketValue)) = [1234500000] := by
  have := monetary_scalings_compose.2.2 entry12345 holding12345 12345 emptyDb 1 1 0
    monetary_scalings_compose.1 (by decide)
  simpa using this

/-! ### Claim C5: the XML information-table parse -/

/-- Does the node carry a truthy, valid security identifier code?  This is
exactly the condition under which `parseHoldingEntry` keeps the node. -/
def xmlCusipOk (e : InfoTableEntry) : Bool :=
  match truthy e.cusip with
  | some c => isValidCUSIP c
  | Option.none => false

theorem parseHoldingEntry_isSome (e : InfoTableEntry) :
    (parseHoldingEntry e).isSome = xmlCusipOk e := by
  unfold parseHoldingEntry xmlCusipOk
  cases truthy e.cusip with
  | none => rfl
  | some c =>
      by_cases hv : isValidCUSIP c
      · simp [hv]
      · simp [hv]

theorem length_filterMap_parseHoldingEntry (ns : List InfoTableEntry) :
    (ns.filterMap parseHoldingEntry).length = (ns.filter xmlCusipOk).length := by
  induction ns with
  | nil => rfl
  | cons n t ih =>
      rw [List.filterMap_cons, List.filter_cons]
      cases hn : parseHoldingEntry n with
      | none =>
          have hok : xmlCusipOk n = false := by
            rw [← parseHoldingEntry_isSome, hn]
            rfl
          simp [hok, ih]
      | some h =>
          have hok : xmlCusipOk n = true := by
            rw [← parseHoldingEntry_isSome, hn]
            rfl
          simp [hok, ih]

theorem filter_length_split (ns : List InfoTableEntry) (p : InfoTableEntry → Bool) :
    (ns.filter p).length + (ns.filter (fun n => ¬ p n)).length = ns.length := by
  induction ns with
  | nil => rfl
  | cons n t ih =>
      by_cases hn : p n
      · simp only [List.filter_cons, hn]
        simp [hn, ← ih]
        omega
      · simp only [List.filter_cons]
        simp [hn, ← ih]
        omega

/-- Behaviour of the (dead) holdings loop: over `N` nodes of which `K` fail
identifier validation it would keep exactly `N − K` canonical holdings, each
invalid-code node dropped individually by `parseHoldingEntry`.  This is the
behaviour the claim describes; `parseXmlFiling` never reaches the loop. -/
theorem xml_parse_drops_invalid_individually (ns : List InfoTableEntry) (N K : Nat)
    (hN : ns.length = N)
    (hK : (ns.filter (fun n => ¬ xmlCusipOk n)).length = K) :
    (parseXmlHoldings (.many ns)).length = N - K := by
  have hcomp : ((fun o : Option InfoTableEntry => o.bind parseHoldingEntry) ∘ some) =
      parseHoldingEntry := funext fun n => rfl
  have hfm : parseXmlHoldings (.many ns) = ns.filterMap parseHoldingEntry := by
    unfold parseXmlHoldings holdingsData
    rw [List.filterMap_map, hcomp]
  rw [hfm, length_filterMap_parseHoldingEntry]
  have hsplit := filter_length_split ns xmlCusipOk
  omega

/-- An information-table node whose identifier code fails validation. -/
def entryBadCusip : InfoTableEntry :=
  { nameofissuer := some "BAD CO", titleofclass := some "COM",
    cusip := some "BADCUSIP", value := some "1" }

/-- C5.  The claim fails on the code: the parser is built with
`explicitRoot: false`, so the xml2js result of the extracted
`<informationTable>` fragment has only the key `infotable`; the access
`parsed.informationtable` is `undefined`, the member access
`infoTable.infotable` throws, and the catch rethrows `XML_PARSE_ERROR`.
`parseXmlFiling` therefore fails for EVERY XML document — in particular for
an information table of `N = 3` nodes with `K = 1` invalid identifier code,
where the claim demands success with `N − K = 2` holdings.  The holdings
loop below the access, which would indeed keep exactly the two valid-code
nodes, is dead code. -/
theorem xml_parsing_always_fails :
    (∀ parsed : ParsedInfoTableXml, parseXmlFiling parsed = .error xmlParseErrorMsg) ∧
    parseXmlFiling { infotable := .many [entry12345, entryBadCusip, entry12345] } =
      .error xmlParseErrorMsg ∧
    (parseXmlHoldings (.many [entry12345, entryBadCusip, entry12345])).length = 3 - 1 := by
  refine ⟨fun parsed => rfl, rfl, ?_⟩
  exact xml_parse_drops_invalid_individually [entry12345, entryBadCusip, entry12345] 3 1
    (by decide) (by decide)

/-! ### Claim C10: fabricated metadata on the positional paths -/

/-- C10.  Every holding produced by the text or HTML positional parsing path
carries fabricated, constant metadata regardless of document content:
investment discretion `'SOLE'`, share type `'SH'`, and a voting-authority
triple of (sole = parsed share count, shared = 0, none = 0). -/
theorem positional_paths_fabricate_metadata :
    (∀ (row : String) (h : ParsedHolding), parseTextTableRow row = some h →
      h.investmentDiscretion = "SOLE" ∧ h.shrsOrPrnAmt.sshPrnamtType = "SH" ∧
      h.votingAuthority.sole = h.shrsOrPrnAmt.sshPrnamt ∧
      h.votingAuthority.shared = some 0 ∧ h.votingAuthority.none = some 0) ∧
    (∀ (cells : List String) (cusip : String) (h : ParsedHolding),
      createHoldingFromCells cells cusip = some h →
      h.investmentDiscretion = "SOLE" ∧ h.shrsOrPrnAmt.sshPrnamtType = "SH" ∧
      h.votingAuthority.sole = h.shrsOrPrnAmt.sshPrnamt ∧
      h.votingAuthority.shared = some 0 ∧ h.votingAuthority.none = some 0) := by
  constructor
  · intro row h hp
    unfold parseTextTableRow at hp
    by_cases hlen : (split2ws row).length < 4
    · rw [if_pos hlen] at hp
      exact Option.noConfusion hp
    · rw [if_neg hlen] at hp
      cases hidx : (split2ws row).findIdx? cusipLike with
      | none =>
          rw [hidx] at hp
          exact Option.noConfusion hp
      | some i =>
          rw [hidx] at hp
          dsimp only at hp
          injection hp with hp'
          rw [← hp']
          exact ⟨rfl, rfl, rfl, rfl, rfl⟩
  · intro cells cusip h hp
    unfold createHoldingFromCells at hp
    dsimp only at hp
    injection hp with hp'
    rw [← hp']
    exact ⟨rfl, rfl, rfl, rfl, rfl⟩

/-- A whitespace-delimited information-table row of the legacy text format. -/
def rowFixture : String := "APPLE INC  COM  037833100  17400000  915560000"

/-- The canonical holding the text path produces for `rowFixture`. -/
def holdingFromRow : ParsedHolding :=
  { nameOfIssuer := "APPLE INC", titleOfClass := "COM", cusip := "037833100",
    value := some 17400000000,
    shrsOrPrnAmt := { sshPrnamt := some 915560000, sshPrnamtType := "SH" },
    investmentDiscretion := "SOLE",
    votingAuthority := { sole := some 915560000, shared := some 0, none := some 0 } }

/-- Closed instance of C10's theorem on a concrete parsed text row. -/
theorem positional_paths_fabricate_metadata_witness :
    holdingFromRow.investmentDiscretion = "SOLE" ∧
    holdingFromRow.votingAuthority.sole = holdingFromRow.shrsOrPrnAmt.sshPrnamt := by
  have h := positional_paths_fabricate_metadata.1 rowFixture holdingFromRow (by decide)
  exact ⟨h.1, h.2.2.1⟩

/-! ### Claims C6 and C2: position-change derivation -/

theorem calculatePercentageChange_zero (b : ℚ) :
    calculatePercentageChange 0 b = if 0 < b then 100 else 0 := by
  unfold calculatePercentageChange
  simp

theorem emitGroup_isSome_iff (g : List HoldingRow) :
    (emitGroup g).isSome ↔ 2 ≤ g.length := by
  unfold emitGroup
  by_cases hlen : g.length < 2
  · rw [if_pos hlen]
    simp
    omega
  · rw [if_neg hlen]
    have hslen := length_sortByDesc (fun h : HoldingRow => h.periodEndDate) g
    cases hs : sortByDesc (fun h => h.periodEndDate) g with
    | nil =>
        rw [hs] at hslen
        exact absurd hslen.symm (by simp at hslen ⊢; omega)
    | cons a t =>
        cases t with
        | nil =>
            rw [hs] at hslen
            simp at hslen
            omega
        | cons b t2 =>
            simp
            omega

theorem emitGroup_spec (g : List HoldingRow) (c : PositionChangeRow)
    (hp : emitGroup g = some c) :
    ∃ current previous rest,
      sortByDesc (fun h => h.periodEndDate) g = current :: previous :: rest ∧
      c.fundManagerId = current.fundManagerId ∧ c.securityId = current.securityId ∧
      c.fromPeriod = previous.periodEndDate ∧ c.toPeriod = current.periodEndDate ∧
      c.sharesChange = current.sharesHeld - previous.sharesHeld ∧
      c.valueChange = current.marketValue - previous.marketValue ∧
      c.percentChange =
        calculatePercentageChange (previous.marketValue : ℚ) (current.marketValue : ℚ) ∧
      c.changeType = (if 0 < c.sharesChange then "INCREASED"
        else if c.sharesChange < 0 then "DECREASED" else "UNCHANGED") := by
  unfold emitGroup at hp
  by_cases hlen : g.length < 2
  · rw [if_pos hlen] at hp
    exact Option.noConfusion hp
  · rw [if_neg hlen] at hp
    cases hs : sortByDesc (fun h => h.periodEndDate) g with
    | nil =>
        rw [hs] at hp
        exact Option.noConfusion hp
    | cons a t =>
        cases t with
        | nil =>
            rw [hs] at hp
            exact Option.noConfusion hp
        | cons b t2 =>
            rw [hs] at hp
            dsimp only at hp
            injection hp with hp'
            refine ⟨a, b, t2, rfl, ?_⟩
            rw [← hp']
            exact ⟨rfl, rfl, rfl, rfl, rfl, rfl, rfl, rfl⟩

/-- Two holdings rows of the same (fund manager, security) pair with the SAME
period-end date. -/
def dupRow1 : HoldingRow :=
  { id := 1, filingId := 1, securityId := 5, fundManagerId := 3, periodEndDate := 100,
    sharesHeld := 10, marketValue := 1000, percentOfPortfolio := Option.none,
    investmentDiscretion := "SOLE",
    votingAuthority := { sole := some 10, shared := some 0, none := some 0 } }

/-- The second row of the same pair and the same period-end date. -/
def dupRow2 : HoldingRow := { dupRow1 with id := 2, sharesHeld := 20, marketValue := 2000 }

/-- C6 (counterexample).  A window whose single (fund, security) group has
two rows with one and the same period-end date: the group spans only 1
distinct period-end date, yet the derivation emits a PositionChange for it —
the emission condition is "at least 2 rows", not "at least 2 distinct
period-end dates". -/
theorem position_change_emitted_for_single_period :
    (distinctList ([dupRow1, dupRow2].map (fun h => h.periodEndDate))).length = 1 ∧
    (calcPositionChangesFromWindow [dupRow1, dupRow2]).length = 1 := by
  decide

/-- C6 (amended).  The derivation groups the window by (fundManagerId,
securityId) in first-occurrence order; a group emits a PositionChange exactly
when it contains at least 2 rows (not 2 distinct period-end dates); for an
emitting group the two first rows of the descending stable sort by period-end
date (the two most recent periods when the dates are distinct) are compared;
the classification is INCREASED / DECREASED / UNCHANGED by the sign of the
share delta, and the percent delta follows `calculatePercentageChange`, which
maps a zero prior value to 100 when the new value is positive and 0
otherwise. -/
theorem position_change_derivation_amended :
    (∀ w : List HoldingRow,
      calcPositionChangesFromWindow w =
        (windowKeys w).filterMap (fun k => emitGroup (groupRows w k))) ∧
    (∀ g : List HoldingRow, (emitGroup g).isSome ↔ 2 ≤ g.length) ∧
    (∀ (g : List HoldingRow) (c : PositionChangeRow), emitGroup g = some c →
      ∃ current previous rest,
        sortByDesc (fun h => h.periodEndDate) g = current :: previous :: rest ∧
        c.fundManagerId = current.fundManagerId ∧ c.securityId = current.securityId ∧
        c.fromPeriod = previous.periodEndDate ∧ c.toPeriod = current.periodEndDate ∧
        c.sharesChange = current.sharesHeld - previous.sharesHeld ∧
        c.valueChange = current.marketValue - previous.marketValue ∧
        c.percentChange =
          calculatePercentageChange (previous.marketValue : ℚ) (current.marketValue : ℚ) ∧
        c.changeType = (if 0 < c.sharesChange then "INCREASED"
          else if c.sharesChange < 0 then "DECREASED" else "UNCHANGED")) ∧
    (∀ b : ℚ, calculatePercentageChange 0 b = if 0 < b then 100 else 0) :=
  ⟨fun _ => rfl, emitGroup_isSome_iff, emitGroup_spec, calculatePercentageChange_zero⟩

/-- Closed instance of C6's amended theorem: the two-row single-period group
does emit. -/
theorem position_change_derivation_amended_witness :
    (emitGroup [dupRow1, dupRow2]).isSome :=
  (position_change_derivation_amended.2.1 [dupRow1, dupRow2]).mpr (by decide)

/-- A helper for evaluating the derivation on a one-group window. -/
theorem calc_window_singleton (w : List HoldingRow) (k : Nat × Nat) (c : PositionChangeRow)
    (hkeys : windowKeys w = [k]) (hEG : emitGroup (groupRows w k) = some c) :
    calcPositionChangesFromWindow w = [c] := by
  unfold calcPositionChangesFromWindow
  rw [hkeys]
  simp [List.filterMap_cons, hEG]

/-- A holdings-window row for the C2 scenario, with the given id, period-end
date, share count and market value. -/
def c2Row (i d : Nat) (sh mv : Int) : HoldingRow :=
  { id := i, filingId := 1, securityId := 5, fundManagerId := 3, periodEndDate := d,
    sharesHeld := sh, marketValue := mv, percentOfPortfolio := Option.none,
    investmentDiscretion := "SOLE",
    votingAuthority := { sole := some 0, shared := some 0, none := some 0 } }

/-- The C2 counterexample window: shares 1,000,000 → 1,500,000 across two
adjacent periods, market value 100 in both. -/
def w100 : List HoldingRow :=
  [c2Row 1 20240331 1000000 100, c2Row 2 20240630 1500000 100]

/-- C2 (counterexample).  On `w100` the holdings move from 1,000,000 shares
to 1,500,000 shares across two adjacent periods, yet the emitted
PositionChange has percentChange 0, not +50%: the percent delta is computed
from the (unchanged) market values, not from the share counts. -/
theorem position_change_percent_not_from_shares :
    ∃ c, calcPositionChangesFromWindow w100 = [c] ∧
      c.changeType = "INCREASED" ∧ c.sharesChange = 500000 ∧
      c.percentChange = 0 ∧ c.percentChange ≠ 50 := by
  have hkeys : windowKeys w100 = [(3, 5)] := by decide
  have hIs : (emitGroup (groupRows w100 (3, 5))).isSome := by decide
  cases hEG : emitGroup (groupRows w100 (3, 5)) with
  | none => rw [hEG] at hIs; exact absurd hIs (by decide)
  | some c =>
      obtain ⟨current, previous, rest, hsort, _, _, _, _, hshares, _, hpct, htype⟩ :=
        emitGroup_spec _ _ hEG
      have hg : groupRows w100 (3, 5) = [c2Row 1 20240331 1000000 100,
          c2Row 2 20240630 1500000 100] := by decide
      have hsorteq : sortByDesc (fun h : HoldingRow => h.periodEndDate)
          [c2Row 1 20240331 1000000 100, c2Row 2 20240630 1500000 100] =
          [c2Row 2 20240630 1500000 100, c2Row 1 20240331 1000000 100] := by decide
      rw [hg, hsorteq] at hsort
      injection hsort with hcur hsort2
      injection hsort2 with hprev _
      rw [← hcur, ← hprev] at hshares hpct
      have hsc : c.sharesChange = 500000 := by
        rw [hshares]
        norm_num [c2Row]
      have hty : c.changeType = "INCREASED" := by
        rw [htype, hsc]
        norm_num
      have hpc : c.percentChange = 0 := by
        rw [hpct]
        norm_num [c2Row, calculatePercentageChange]
      refine ⟨c, calc_window_singleton _ _ _ hkeys hEG, hty, hsc, hpc, ?_⟩
      rw [hpc]
      norm_num

/-- C2 (amended).  Whenever the derivation's two compared rows for a pair
have 1,000,000 shares in the prior period and 1,500,000 in the newer one, the
emitted PositionChange has changeType INCREASED and sharesChange +500,000;
its percentChange is the market-value percentage change of the pair, which
equals +50% exactly when the market value also grows by half (for example
when value tracks the share count). -/
theorem position_change_1M_to_15M (g : List HoldingRow) (c : PositionChangeRow)
    (current previous : HoldingRow) (rest : List HoldingRow)
    (hEG : emitGroup g = some c)
    (hsort : sortByDesc (fun h => h.periodEndDate) g = current :: previous :: rest)
    (hprevSh : previous.sharesHeld = 1000000) (hcurSh : current.sharesHeld = 1500000) :
    c.changeType = "INCREASED" ∧ c.sharesChange = 500000 ∧
    c.percentChange =
      calculatePercentageChange (previous.marketValue : ℚ) (current.marketValue : ℚ) ∧
    (0 < previous.marketValue → 2 * current.marketValue = 3 * previous.marketValue →
      c.percentChange = 50) := by
  obtain ⟨cur', prev', rest', hsort', _, _, _, _, hshares, _, hpct, htype⟩ :=
    emitGroup_spec _ _ hEG
  rw [hsort] at hsort'
  injection hsort' with hcur hrest
  injection hrest with hprev _
  rw [hcur] at hcurSh
  rw [hprev] at hprevSh
  rw [hprevSh, hcurSh] at hshares
  rw [← hcur, ← hprev] at hpct
  have hsc : c.sharesChange = 500000 := by
    rw [hshares]
    norm_num
  have hty : c.changeType = "INCREASED" := by
    rw [htype, hsc]
    norm_num
  refine ⟨hty, hsc, hpct, ?_⟩
  intro hpos heq
  rw [hpct]
  have hne : ((previous.marketValue : Int) : ℚ) ≠ 0 := by
    have hq : (0 : ℚ) < ((previous.marketValue : Int) : ℚ) := by exact_mod_cast hpos
    exact ne_of_gt hq
  have h2 : (2 : ℚ) * ((current.marketValue : Int) : ℚ) =
      3 * ((previous.marketValue : Int) : ℚ) := by exact_mod_cast heq
  unfold calculatePercentageChange
  rw [if_neg hne]
  field_simp
  linarith

/-- The C2 witness window: shares 1,000,000 → 1,500,000 with market values
100 → 150. -/
def w150 : List HoldingRow :=
  [c2Row 1 20240331 1000000 100, c2Row 2 20240630 1500000 150]

/-- Closed instance of C2's amended theorem: when the market value also grows
by half, percentChange is +50. -/
theorem position_change_1M_to_15M_witness :
    ∃ c, calcPositionChangesFromWindow w150 = [c] ∧
      c.changeType = "INCREASED" ∧ c.sharesChange = 500000 ∧ c.percentChange = 50 := by
  have hkeys : windowKeys w150 = [(3, 5)] := by decide
  have hIs : (emitGroup (groupRows w150 (3, 5))).isSome := by decide
  cases hEG : emitGroup (groupRows w150 (3, 5)) with
  | none => rw [hEG] at hIs; exact absurd hIs (by decide)
  | some c =>
      have hg : groupRows w150 (3, 5) = [c2Row 1 20240331 1000000 100,
          c2Row 2 20240630 1500000 150] := by decide
      have hsorteq : sortByDesc (fun h : HoldingRow => h.periodEndDate)
          (groupRows w150 (3, 5)) =
          (c2Row 2 20240630 1500000 150) :: (c2Row 1 20240331 1000000 100) :: [] := by
        rw [hg]
        decide
      have h := position_change_1M_to_15M (groupRows w150 (3, 5)) c
        (c2Row 2 20240630 1500000 150) (c2Row 1 20240331 1000000 100) [] hEG hsorteq
        (by decide) (by decide)
      refine ⟨c, calc_window_singleton _ _ _ hkeys hEG, h.1, h.2.1, ?_⟩
      have h50 := h.2.2.2 (by decide) (by decide)
      exact h50

/-! ### Claim C8: the run always returns a summary and accounts for every
filing -/

theorem processSingleFiling_error_shape (options : IngestionOptions)
    (fetchParse : EdgarFilingIndex → Except String ParsedFiling)
    (db : Db) (filingIndex : EdgarFilingIndex) (m : String)
    (h : (processSingleFiling options fetchParse db filingIndex).2 = .error m) :
    ∃ m', m = failMsg filingIndex m' := by
  unfold processSingleFiling at h
  by_cases hskip : options.skipExisting && existingFilingCheck db filingIndex
  · rw [if_pos hskip] at h
    exact Except.noConfusion h
  · rw [if_neg hskip] at h
    cases hfp : fetchParse filingIndex with
    | error m0 =>
        rw [hfp] at h
        dsimp only at h
        injection h with h'
        exact ⟨m0, h'.symm⟩
    | ok pf =>
        rw [hfp] at h
        dsimp only at h
        rcases hEM : ensureFundManager db filingIndex with ⟨db1, fundManagerId, isNewManager⟩
        rw [hEM] at h
        dsimp only at h
        cases hcf : createFilingRecord db1 filingIndex pf fundManagerId with
        | error m1 =>
            rw [hcf] at h
            dsimp only at h
            injection h with h'
            exact ⟨m1, h'.symm⟩
        | ok pr =>
            rw [hcf] at h
            rcases pr with ⟨db2, filingId⟩
            dsimp only at h
            rcases hPH : processHoldings db2 pf.informationTable filingId fundManagerId
                pf.reportDate with ⟨db3, nh, us⟩
            rw [hPH] at h
            exact Except.noConfusion h

theorem stepFiling_processed_errors (options : IngestionOptions)
    (fetchParse : EdgarFilingIndex → Except String ParsedFiling)
    (st : Db × IngestionResult) (idx : EdgarFilingIndex) :
    ((stepFiling options fetchParse st idx).2.processedFilings
        + (stepFiling options fetchParse st idx).2.errors.length
      = st.2.processedFilings + st.2.errors.length + 1) ∧
    (∀ m ∈ (stepFiling options fetchParse st idx).2.errors,
      m ∈ st.2.errors ∨ ∃ m', m = failMsg idx m') := by
  unfold stepFiling
  rcases hps : processSingleFiling options fetchParse st.1 idx with ⟨db', r⟩
  cases r with
  | ok c =>
      dsimp only
      exact ⟨by omega, fun m hm => Or.inl hm⟩
  | error m0 =>
      dsimp only
      constructor
      · simp
        omega
      · intro m hm
        rcases List.mem_append.1 hm with hin | hnew
        · exact Or.inl hin
        · right
          have hm0 : m = m0 := by simpa using hnew
          have hshape := processSingleFiling_error_shape options fetchParse st.1 idx m0
            (by rw [hps])
          rcases hshape with ⟨m', hm'⟩
          exact ⟨m', hm0 ▸ hm'⟩

theorem foldl_stepFiling_spec (options : IngestionOptions)
    (fetchParse : EdgarFilingIndex → Except String ParsedFiling) :
    ∀ (l : List EdgarFilingIndex) (st : Db × IngestionResult),
      ((l.foldl (stepFiling options fetchParse) st).2.processedFilings
          + (l.foldl (stepFiling options fetchParse) st).2.errors.length
        = st.2.processedFilings + st.2.errors.length + l.length) ∧
      (∀ m ∈ (l.foldl (stepFiling options fetchParse) st).2.errors,
        m ∈ st.2.errors ∨ ∃ idx ∈ l, ∃ m', m = failMsg idx m') := by
  intro l
  induction l with
  | nil => intro st; simp
  | cons idx t ih =>
      intro st
      rw [List.foldl_cons]
      have hstep := stepFiling_processed_errors options fetchParse st idx
      have hind := ih (stepFiling options fetchParse st idx)
      constructor
      · have h1 := hind.1
        have h2 := hstep.1
        simp only [List.length_cons]
        omega
      · intro m hm
        rcases hind.2 m hm with hin | ⟨idx', hidx', m', hm'⟩
        · rcases hstep.2 m hin with h1 | ⟨m', hm'⟩
          · exact Or.inl h1
          · exact Or.inr ⟨idx, List.mem_cons_self idx t, m', hm'⟩
        · exact Or.inr ⟨idx', List.mem_cons_of_mem idx hidx', m', hm'⟩

theorem chunksGo_join {α : Type} (bs : Nat) :
    ∀ (l acc : List α) (k : Nat), (chunksGo bs l acc k).flatten = acc.reverse ++ l := by
  intro l
  induction l with
  | nil =>
      intro acc k
      by_cases hacc : acc.isEmpty
      · have : acc = [] := by
          cases acc
          · rfl
          · simp [List.isEmpty] at hacc
        simp [chunksGo, hacc, this]
      · simp [chunksGo, hacc]
  | cons x xs ih =>
      intro acc k
      cases k with
      | zero => simp [chunksGo, ih]
      | succ k => simp [chunksGo, ih]

theorem createBatches_join {α : Type} (items : List α) (batchSize : Nat) :
    (createBatches items batchSize).flatten = items := by
  cases items with
  | nil => rfl
  | cons x xs => simp [createBatches, chunksGo_join]

theorem foldl_batches (options : IngestionOptions)
    (fetchParse : EdgarFilingIndex → Except String ParsedFiling) :
    ∀ (batches : List (List EdgarFilingIndex)) (st : Db × IngestionResult),
      batches.foldl (fun s b => b.foldl (stepFiling options fetchParse) s) st
        = (batches.flatten).foldl (stepFiling options fetchParse) st := by
  intro batches
  induction batches with
  | nil => intro st; rfl
  | cons b bs ih =>
      intro st
      rw [List.foldl_cons, ih, List.flatten_cons, List.foldl_append]

/-- C8.  The run never throws past its own boundary: `ingestFilings` is a
total function into run summaries; an enumeration failure becomes the
summary's sole error; in the normal case every candidate filing is accounted
for — `processedFilings + errors.length` equals the number of candidate
filings after the `specificCIKs` filter, so a per-filing failure aborts only
that filing and the remaining ones are still processed — and every recorded
error is the wrapped, readable per-filing message
`"Failed to process filing <accession>: <cause>"`. -/
theorem ingest_returns_summary (options : IngestionOptions)
    (fetchParse : EdgarFilingIndex → Except String ParsedFiling) (db : Db) :
    (∀ m, (ingestFilings options fetchParse (.error m) db).2.errors = [m] ∧
          (ingestFilings options fetchParse (.error m) db).2.processedFilings = 0) ∧
    (∀ filingIndexes : List EdgarFilingIndex,
      (ingestFilings options fetchParse (.ok filingIndexes) db).2.processedFilings
          + (ingestFilings options fetchParse (.ok filingIndexes) db).2.errors.length
        = (filterBySpecificCIKs options filingIndexes).length ∧
      ∀ m ∈ (ingestFilings options fetchParse (.ok filingIndexes) db).2.errors,
        ∃ idx ∈ filterBySpecificCIKs options filingIndexes,
          ∃ m', m = failMsg idx m') := by
  constructor
  · intro m
    exact ⟨rfl, rfl⟩
  · intro filingIndexes
    have hres : (ingestFilings options fetchParse (.ok filingIndexes) db).2
        = ((createBatches (filterBySpecificCIKs options filingIndexes)
            (if options.maxConcurrent = 0 then 5 else options.maxConcurrent)).foldl
          (fun st batch => batch.foldl (stepFiling options fetchParse) st)
          (db, emptyResult)).2 := rfl
    rw [hres, foldl_batches, createBatches_join]
    have hspec := foldl_stepFiling_spec options fetchParse
      (filterBySpecificCIKs options filingIndexes) (db, emptyResult)
    constructor
    · have h1 := hspec.1
      simpa [emptyResult] using h1
    · intro m hm
      rcases hspec.2 m hm with hin | hgood
      · simp [emptyResult] at hin
      · exact hgood

/-- The always-failing download-and-parse collaborator. -/
def fetchParseBoom : EdgarFilingIndex → Except String ParsedFiling :=
  fun _ => .error "boom"

/-- Closed instance of C8's theorem: the one error of a one-filing run whose
download fails is the wrapped per-filing message. -/
theorem ingest_returns_summary_witness :
    ∃ idx ∈ filterBySpecificCIKs optsSkip [idxBrk], ∃ m',
      failMsg idxBrk "boom" = failMsg idx m' :=
  ((ingest_returns_summary optsSkip fetchParseBoom emptyDb).2 [idxBrk]).2
    (failMsg idxBrk "boom") (by decide)
